import Mathlib

/-!
Verification of the AI chat tool-orchestration and message-sanitization
pipeline of the deltalytix repository.  The TypeScript sources are embedded
shallowly: JSON-like runtime values become the inductive `Value`, the pure
message sanitizer of `src/app/api/ai/chat/route.ts` becomes
`sanitizeMessagesForModel`, the settings upsert of
`src/server/ai-settings.ts` becomes `upsertAiSettingsAction`, the secret
codec of `src/lib/ai/secrets.ts` becomes `encryptSecret`/`decryptSecret`
over an abstract authenticated cipher, and the model resolver of
`src/lib/ai/user-model.ts` becomes `getPreferredModelForCurrentUser`.
-/

namespace Deltalytix

/-! ### JSON-like values (the `unknown` runtime values of the source) -/

inductive Value where
  | str (s : String)
  | num (n : Int)
  | boolean (b : Bool)
  | null
  | arr (elems : List Value)
  | obj (fields : List (String × Value))

/-- `typeof value === 'object' && value !== null`; JS arrays are objects. -/
def isRecordV : Value → Bool
  | .obj _ => true
  | .arr _ => true
  | _ => false

/-- Property access `v[key]`; `none` plays the role of `undefined`. -/
def getField : Value → String → Option Value
  | .obj fs, k => (fs.find? (fun p => p.1 == k)).map (fun p => p.2)
  | _, _ => none

/-! ### JS string operations used by the source -/

def isWS (c : Char) : Bool := c.isWhitespace

def trimList (l : List Char) : List Char :=
  ((l.dropWhile isWS).reverse.dropWhile isWS).reverse

/-- `String.prototype.trim()`. -/
def jsTrim (s : String) : String := String.mk (trimList s.data)

def startsWithList : List Char → List Char → Bool
  | [], _ => true
  | _ :: _, [] => false
  | p :: ps, c :: cs => p == c && startsWithList ps cs

/-- `s.startsWith(pre)`. -/
def strStartsWith (s pre : String) : Bool := startsWithList pre.data s.data

def hasSubList (pat : List Char) : List Char → Bool
  | [] => pat.isEmpty
  | c :: cs => startsWithList pat (c :: cs) || hasSubList pat cs

/-- `s.includes(pat)`. -/
def jsIncludes (s pat : String) : Bool := hasSubList pat.data s.data

/-- `s.toLowerCase()` restricted to the character-wise lowering used here. -/
def jsToLower (s : String) : String := String.mk (s.data.map Char.toLower)

/-! ### Message sanitizer (`sanitizeMessagesForModel`, chat route lines 31-115) -/

inductive Role where
  | user
  | assistant
  | system
deriving DecidableEq

def roleString : Role → String
  | .user => "user"
  | .assistant => "assistant"
  | .system => "system"

/-- `isUIMessageRole` combined with reading `raw['role']`. -/
def parseRole : Option Value → Option Role
  | some (.str "user") => some .user
  | some (.str "assistant") => some .assistant
  | some (.str "system") => some .system
  | _ => none

/-- A sanitized UI message: a role together with its kept parts. -/
structure Msg where
  role : Role
  parts : List Value

def partType (part : Value) : Option String :=
  match getField part "type" with
  | some (.str s) => some s
  | _ => none

/-- `typeof textValue === 'string' && textValue.trim().length > 0`. -/
def partTextNonBlank (part : Value) : Bool :=
  match getField part "text" with
  | some (.str s) => jsTrim s != ""
  | _ => false

/-- The per-part filter of the sanitizer (chat route lines 47-78). -/
def keepPart (role : Role) (part : Value) : Bool :=
  if !isRecordV part then false
  else if partType part == some "step-start" then false
  else if strStartsWith ((partType part).getD "") "tool-" then false
  else
    match role with
    | .assistant => partType part == some "text" && partTextNonBlank part
    | .user =>
        if partType part == some "text" then partTextNonBlank part
        else true
    | .system => partType part == some "text" && partTextNonBlank part

def textPart (t : String) : Value :=
  .obj [("type", .str "text"), ("text", .str t)]

/-- `raw['content'] ?? raw['text']`. -/
def fallbackRaw (raw : Value) : Option Value :=
  match getField raw "content" with
  | none => getField raw "text"
  | some .null => getField raw "text"
  | some v => some v

/-- The legacy flat-text fallback: a non-blank string content, trimmed. -/
def fallbackTextOf (raw : Value) : Option String :=
  match fallbackRaw raw with
  | some (.str s) => if jsTrim s != "" then some (jsTrim s) else none
  | _ => none

/-- Per-raw-entry processing of the sanitizer loop (lines 36-106);
`none` models `continue` without a push. -/
def sanitizeMsg (raw : Value) : Option Msg :=
  if !isRecordV raw then none
  else
    match parseRole (getField raw "role") with
    | none => none
    | some role =>
      match getField raw "parts" with
      | some (.arr parts) =>
          let kept := parts.filter (keepPart role)
          if kept.isEmpty then
            (fallbackTextOf raw).map (fun t => ⟨role, [textPart t]⟩)
          else some ⟨role, kept⟩
      | _ => (fallbackTextOf raw).map (fun t => ⟨role, [textPart t]⟩)

def notUser (m : Msg) : Bool :=
  match m.role with
  | .user => false
  | _ => true

/-- The trailing `while (... last .role !== 'user') sanitized.pop()` loop. -/
def dropTrailingNonUser (l : List Msg) : List Msg :=
  (l.reverse.dropWhile notUser).reverse

def sanitizeMessagesForModel (rawMessages : Value) : List Msg :=
  match rawMessages with
  | .arr l => dropTrailingNonUser (l.filterMap sanitizeMsg)
  | _ => []

/-- Re-reading a pushed `{role, parts}` object as a raw JSON value. -/
def msgToValue (m : Msg) : Value :=
  .obj [("role", .str (roleString m.role)), ("parts", .arr m.parts)]

/-! ### Basic lemmas about dropWhile-based trimming -/

theorem dropWhile_idem {α : Type} (p : α → Bool) (l : List α) :
    (l.dropWhile p).dropWhile p = l.dropWhile p := by
  induction l with
  | nil => rfl
  | cons x xs ih =>
      rw [List.dropWhile_cons]
      split
      · exact ih
      · next h => simp [List.dropWhile_cons, h]

theorem head_false_of_dropWhile {α : Type} (p : α → Bool) (l : List α) :
    ∀ a, (l.dropWhile p).head? = some a → p a = false := by
  induction l with
  | nil => intro a h; simp [List.dropWhile] at h
  | cons x xs ih =>
      intro a h
      rw [List.dropWhile_cons] at h
      by_cases hx : p x = true
      · rw [if_pos hx] at h; exact ih a h
      · rw [if_neg hx] at h
        simp only [List.head?_cons, Option.some.injEq] at h
        subst h
        exact Bool.not_eq_true _ ▸ hx

theorem dropWhile_eq_self_of_head {α : Type} (p : α → Bool) (l : List α)
    (h : ∀ a, l.head? = some a → p a = false) : l.dropWhile p = l := by
  cases l with
  | nil => rfl
  | cons x xs =>
      have hx := h x rfl
      rw [List.dropWhile_cons, hx]
      simp

theorem trimList_idem (l : List Char) : trimList (trimList l) = trimList l := by
  unfold trimList
  set a := l.dropWhile isWS with ha
  set b := a.reverse.dropWhile isWS with hb
  have h1 : b.reverse.dropWhile isWS = b.reverse := by
    apply dropWhile_eq_self_of_head
    intro c hc
    have hdecomp : a.reverse.takeWhile isWS ++ b = a.reverse :=
      List.takeWhile_append_dropWhile ..
    have ha2 : a = b.reverse ++ (a.reverse.takeWhile isWS).reverse := by
      have h3 := congrArg List.reverse hdecomp
      simpa using h3.symm
    cases hbr : b.reverse with
    | nil => rw [hbr] at hc; simp at hc
    | cons y ys =>
        rw [hbr] at hc
        simp only [List.head?_cons, Option.some.injEq] at hc
        subst hc
        have hha : a.head? = some y := by rw [ha2, hbr]; rfl
        exact head_false_of_dropWhile isWS l y (ha ▸ hha)
  rw [h1, List.reverse_reverse, dropWhile_idem]

theorem jsTrim_idem (s : String) : jsTrim (jsTrim s) = jsTrim s :=
  congrArg String.mk (trimList_idem s.data)

/-! ### Stability of the per-message filter on its own output -/

/-- Messages the sanitizer pushes: non-empty parts, all of which the
per-part filter keeps. -/
def goodMsg (m : Msg) : Prop :=
  m.parts ≠ [] ∧ m.parts.filter (keepPart m.role) = m.parts

theorem keepPart_textPart (r : Role) (t : String) (h : jsTrim t = t) (h2 : t ≠ "") :
    keepPart r (textPart t) = true := by
  cases r <;>
    simp [keepPart, textPart, isRecordV, partType, partTextNonBlank, getField,
      strStartsWith, startsWithList, List.find?, h, h2]

theorem fallbackTextOf_spec (v : Value) (t : String) (h : fallbackTextOf v = some t) :
    jsTrim t = t ∧ t ≠ "" := by
  unfold fallbackTextOf at h
  split at h
  · rename_i s hs
    split at h
    · rename_i hne
      simp only [Option.some.injEq] at h
      subst h
      refine ⟨jsTrim_idem s, ?_⟩
      simpa [bne_iff_ne] using hne
    · exact absurd h (by simp)
  · exact absurd h (by simp)

theorem goodMsg_of_sanitizeMsg (v : Value) (m : Msg) (h : sanitizeMsg v = some m) :
    goodMsg m := by
  unfold sanitizeMsg at h
  split at h
  · exact absurd h (by simp)
  · split at h
    · exact absurd h (by simp)
    · next role hrole =>
        split at h
        · next parts hparts =>
            by_cases hk : (parts.filter (keepPart role)).isEmpty = true
            · rw [if_pos hk] at h
              simp only [Option.map_eq_some'] at h
              obtain ⟨t, ht, hm⟩ := h
              obtain ⟨ht1, ht2⟩ := fallbackTextOf_spec v t ht
              subst hm
              exact ⟨by simp, by simp [keepPart_textPart role t ht1 ht2]⟩
            · rw [if_neg hk] at h
              simp only [Option.some.injEq] at h
              subst h
              refine ⟨by simpa using hk, ?_⟩
              simp [List.filter_filter]
        · next hnp =>
            simp only [Option.map_eq_some'] at h
            obtain ⟨t, ht, hm⟩ := h
            obtain ⟨ht1, ht2⟩ := fallbackTextOf_spec v t ht
            subst hm
            exact ⟨by simp, by simp [keepPart_textPart role t ht1 ht2]⟩

theorem sanitizeMsg_msgToValue (m : Msg) (h : goodMsg m) :
    sanitizeMsg (msgToValue m) = some m := by
  obtain ⟨r, parts⟩ := m
  obtain ⟨h1, h2⟩ := h
  have hrole : parseRole (getField (msgToValue ⟨r, parts⟩) "role") = some r := by
    cases r <;> simp [msgToValue, getField, parseRole, roleString, List.find?]
  have hparts : getField (msgToValue ⟨r, parts⟩) "parts" = some (.arr parts) := by
    simp [msgToValue, getField, List.find?]
  unfold sanitizeMsg
  rw [hrole, hparts]
  simp only [isRecordV, msgToValue, Bool.not_true, Bool.false_eq_true, if_false]
  simp only [goodMsg] at h2
  rw [h2]
  simp [h1]

theorem filterMap_sanitize_map (l : List Msg)
    (h : ∀ m ∈ l, sanitizeMsg (msgToValue m) = some m) :
    (l.map msgToValue).filterMap sanitizeMsg = l := by
  induction l with
  | nil => rfl
  | cons x xs ih =>
      rw [List.map_cons, List.filterMap_cons, h x (by simp)]
      rw [ih (fun m hm => h m (by simp [hm]))]

theorem mem_of_mem_dropTrailing (m : Msg) (l : List Msg)
    (h : m ∈ dropTrailingNonUser l) : m ∈ l := by
  unfold dropTrailingNonUser at h
  rw [List.mem_reverse] at h
  have h2 := (List.dropWhile_sublist (l := l.reverse) notUser).subset h
  simpa using h2

theorem dropTrailingNonUser_idem (l : List Msg) :
    dropTrailingNonUser (dropTrailingNonUser l) = dropTrailingNonUser l := by
  unfold dropTrailingNonUser
  rw [List.reverse_reverse, dropWhile_idem]

/-- C2: for every raw message list the sanitizer's output is either empty or
ends in a message with role user: the trailing `while … pop()` loop removes
trailing non-user messages until the last remaining one has role user. -/
theorem sanitize_ends_with_user (v : Value) :
    sanitizeMessagesForModel v = [] ∨
      ∃ m, (sanitizeMessagesForModel v).getLast? = some m ∧ m.role = Role.user := by
  cases v with
  | arr l =>
      show dropTrailingNonUser (l.filterMap sanitizeMsg) = [] ∨ _
      unfold dropTrailingNonUser
      cases hd : (l.filterMap sanitizeMsg).reverse.dropWhile notUser with
      | nil => left; rfl
      | cons y ys =>
          right
          refine ⟨y, ?_, ?_⟩
          · show (dropTrailingNonUser (l.filterMap sanitizeMsg)).getLast? = some y
            unfold dropTrailingNonUser
            rw [hd, List.getLast?_reverse]
            rfl
          · have hy := head_false_of_dropWhile notUser
              (l.filterMap sanitizeMsg).reverse y (by rw [hd]; rfl)
            unfold notUser at hy
            cases hys : y.role
            · rfl
            · rw [hys] at hy; simp at hy
            · rw [hys] at hy; simp at hy
  | str s => left; rfl
  | num n => left; rfl
  | boolean b => left; rfl
  | null => left; rfl
  | obj fs => left; rfl

/-- C3: sanitization is idempotent — re-sanitizing the pushed
`{role, parts}` objects of a sanitized sequence returns that sequence. -/
theorem sanitize_idempotent (v : Value) :
    sanitizeMessagesForModel (.arr ((sanitizeMessagesForModel v).map msgToValue)) =
      sanitizeMessagesForModel v := by
  have hsan : ∀ m ∈ sanitizeMessagesForModel v, sanitizeMsg (msgToValue m) = some m := by
    intro m hm
    apply sanitizeMsg_msgToValue
    cases v with
    | arr l =>
        have hm2 : m ∈ l.filterMap sanitizeMsg := mem_of_mem_dropTrailing m _ hm
        rw [List.mem_filterMap] at hm2
        obtain ⟨a, _, ha⟩ := hm2
        exact goodMsg_of_sanitizeMsg a m ha
    | str s => exact absurd hm (by simp [sanitizeMessagesForModel])
    | num n => exact absurd hm (by simp [sanitizeMessagesForModel])
    | boolean b => exact absurd hm (by simp [sanitizeMessagesForModel])
    | null => exact absurd hm (by simp [sanitizeMessagesForModel])
    | obj fs => exact absurd hm (by simp [sanitizeMessagesForModel])
  have hstep : sanitizeMessagesForModel (.arr ((sanitizeMessagesForModel v).map msgToValue))
      = dropTrailingNonUser (sanitizeMessagesForModel v) := by
    show dropTrailingNonUser (((sanitizeMessagesForModel v).map msgToValue).filterMap sanitizeMsg)
        = _
    rw [filterMap_sanitize_map _ hsan]
  rw [hstep]
  cases v with
  | arr l => exact dropTrailingNonUser_idem _
  | str s => rfl
  | num n => rfl
  | boolean b => rfl
  | null => rfl
  | obj fs => rfl

/-- C7 counterexample: a user message whose single part has type "widget"
(neither a text part nor a file part) is retained by the sanitizer, with the
widget part kept, so the user-role filter does not keep only text/file parts. -/
theorem user_part_filter_keeps_unknown_types :
    sanitizeMessagesForModel
        (.arr [.obj [("role", .str "user"),
                     ("parts", .arr [.obj [("type", .str "widget")]])]])
      = [⟨Role.user, [.obj [("type", .str "widget")]]⟩] ∧
    partType (.obj [("type", .str "widget")]) ≠ some "text" ∧
    partType (.obj [("type", .str "widget")]) ≠ some "file" := by
  refine ⟨rfl, ?_, ?_⟩ <;> simp [partType, getField, List.find?]

/-- C7 amended: for user-role messages the per-part filter keeps exactly the
record parts that are not step-start markers and not tool-invocation parts
and that, when typed "text", carry a non-blank string text; parts of any
other type (files included) are kept. -/
theorem keepPart_user_characterization (p : Value) :
    keepPart Role.user p = true ↔
      isRecordV p = true ∧
      partType p ≠ some "step-start" ∧
      strStartsWith ((partType p).getD "") "tool-" = false ∧
      (partType p = some "text" → partTextNonBlank p = true) := by
  unfold keepPart
  by_cases h1 : isRecordV p = true
  · by_cases h2 : partType p = some "step-start"
    · simp [h1, h2]
    · by_cases h3 : strStartsWith ((partType p).getD "") "tool-" = true
      · simp [h1, h2, h3]
      · rw [Bool.not_eq_true] at h3
        by_cases h4 : partType p = some "text"
        · simp [h1, h2, h3, h4]
        · simp [h1, h2, h3, h4]
  · rw [Bool.not_eq_true] at h1
    simp [h1]

/-! ### Provider settings upsert (`src/server/ai-settings.ts`) -/

/-- `normalizeHostUrl`: trim, then strip one trailing slash. -/
def normalizeHostUrl (url : String) : String :=
  let trimmed := jsTrim url
  if trimmed = "" then ""
  else if trimmed.data.getLast? = some '/' then String.mk trimmed.data.dropLast
  else trimmed

/-- The validated upsert patch (`upsertSchema`); `none` is an absent field. -/
structure UpsertInput where
  preferredProvider : String
  geminiApiKey : Option String
  geminiModel : Option String
  ollamaHostUrl : Option String
  ollamaModel : Option String

/-- The stored `AiSettings` row fields touched by the upsert. -/
structure AiSettingsStored where
  preferredProvider : String
  geminiApiKeyEncrypted : Option String
  geminiModel : String
  ollamaHostUrl : Option String
  ollamaModel : Option String

/-- The row written by `upsertAiSettingsAction` (lines 78-153): `current` is
the previously stored row (`none` if absent), `encrypt` stands for
`encryptSecret`, and the insert … on conflict update stores exactly the
computed columns. -/
def upsertAiSettingsAction (encrypt : String → String)
    (current : Option AiSettingsStored) (data : UpsertInput) : AiSettingsStored :=
  let ollamaHostUrl : Option String :=
    match data.ollamaHostUrl with
    | some u => if u = "" then none else some (normalizeHostUrl u)
    | none => none
  let geminiModel := data.geminiModel.getD "gemini-flash-latest"
  let geminiApiKeyEncrypted : Option (Option String) :=
    match data.geminiApiKey with
    | none => none
    | some k => if jsTrim k = "" then some none else some (some (encrypt (jsTrim k)))
  let nextGeminiApiKeyEncrypted :=
    match geminiApiKeyEncrypted with
    | none => current.bind (fun c => c.geminiApiKeyEncrypted)
    | some v => v
  let nextOllamaHostUrl :=
    match ollamaHostUrl with
    | none => current.bind (fun c => c.ollamaHostUrl)
    | some h => if h = "" then none else some h
  let nextOllamaModel :=
    match data.ollamaModel with
    | none => current.bind (fun c => c.ollamaModel)
    | some m => if jsTrim m = "" then none else some (jsTrim m)
  { preferredProvider := data.preferredProvider
    geminiApiKeyEncrypted := nextGeminiApiKeyEncrypted
    geminiModel := geminiModel
    ollamaHostUrl := nextOllamaHostUrl
    ollamaModel := nextOllamaModel }

/-- C1: the partial-update law fails in the code — an upsert patch carrying
only `preferredProvider` resets a previously stored non-default
`geminiModel` to the default `"gemini-flash-latest"`, while the key, host
and ollama model are preserved; this contradicts the source's own comment
"We update only the fields provided; others remain as-is." -/
theorem upsert_provider_only_resets_geminiModel :
    (upsertAiSettingsAction (fun s => s)
        (some { preferredProvider := "gemini"
                geminiApiKeyEncrypted := some "ENCRYPTEDKEY"
                geminiModel := "gemini-2.5-pro"
                ollamaHostUrl := some "http://localhost:11434"
                ollamaModel := some "llama3" })
        { preferredProvider := "ollama"
          geminiApiKey := none
          geminiModel := none
          ollamaHostUrl := none
          ollamaModel := none })
      = { preferredProvider := "ollama"
          geminiApiKeyEncrypted := some "ENCRYPTEDKEY"
          geminiModel := "gemini-flash-latest"
          ollamaHostUrl := some "http://localhost:11434"
          ollamaModel := some "llama3" } ∧
    "gemini-flash-latest" ≠ "gemini-2.5-pro" := by
  exact ⟨rfl, by simp⟩

/-- C8 counterexample: an explicitly supplied empty host string does not
clear the stored host — the empty string is falsy, so the code treats it
exactly like an absent field and preserves the previous value. -/
theorem upsert_empty_host_preserves_not_clears :
    (upsertAiSettingsAction (fun s => s)
        (some { preferredProvider := "ollama"
                geminiApiKeyEncrypted := none
                geminiModel := "gemini-flash-latest"
                ollamaHostUrl := some "http://prior-host:11434"
                ollamaModel := some "llama3" })
        { preferredProvider := "ollama"
          geminiApiKey := none
          geminiModel := none
          ollamaHostUrl := some ""
          ollamaModel := none }).ollamaHostUrl
      = some "http://prior-host:11434" ∧
    some "http://prior-host:11434" ≠ (none : Option String) := by
  exact ⟨rfl, by simp⟩

/-- C8 amended: an absent `ollamaHostUrl` preserves the stored host, a
supplied empty string is treated as absent and also preserves it, and a
supplied non-empty host is stored normalized (trimmed, one trailing slash
stripped) — unless it normalizes to the empty string (whitespace-only
input), in which case the stored host is cleared to null. -/
theorem upsert_host_semantics (encrypt : String → String)
    (cur : AiSettingsStored) (data : UpsertInput) :
    (data.ollamaHostUrl = none →
      (upsertAiSettingsAction encrypt (some cur) data).ollamaHostUrl = cur.ollamaHostUrl) ∧
    (data.ollamaHostUrl = some "" →
      (upsertAiSettingsAction encrypt (some cur) data).ollamaHostUrl = cur.ollamaHostUrl) ∧
    (∀ u, data.ollamaHostUrl = some u → u ≠ "" → normalizeHostUrl u ≠ "" →
      (upsertAiSettingsAction encrypt (some cur) data).ollamaHostUrl
        = some (normalizeHostUrl u)) ∧
    (∀ u, data.ollamaHostUrl = some u → u ≠ "" → normalizeHostUrl u = "" →
      (upsertAiSettingsAction encrypt (some cur) data).ollamaHostUrl = none) := by
  refine ⟨?_, ?_, ?_, ?_⟩
  · intro h; simp [upsertAiSettingsAction, h]
  · intro h; simp [upsertAiSettingsAction, h]
  · intro u h hu hn; simp [upsertAiSettingsAction, h, hu, hn]
  · intro u h hu hn; simp [upsertAiSettingsAction, h, hu, hn]

/-- Witness for the amended C8 theorem: the spec's own scenario — a host
supplied with a trailing slash is stored with the slash stripped. -/
theorem upsert_host_semantics_witness :
    (upsertAiSettingsAction (fun s => s)
        (some { preferredProvider := "ollama"
                geminiApiKeyEncrypted := none
                geminiModel := "gemini-flash-latest"
                ollamaHostUrl := none
                ollamaModel := some "llama3" })
        { preferredProvider := "ollama"
          geminiApiKey := none
          geminiModel := none
          ollamaHostUrl := some "http://localhost:11434/"
          ollamaModel := some "llama3" }).ollamaHostUrl
      = some "http://localhost:11434" := by
  have h := (upsert_host_semantics (fun s => s)
      { preferredProvider := "ollama"
        geminiApiKeyEncrypted := none
        geminiModel := "gemini-flash-latest"
        ollamaHostUrl := none
        ollamaModel := some "llama3" }
      { preferredProvider := "ollama"
        geminiApiKey := none
        geminiModel := none
        ollamaHostUrl := some "http://localhost:11434/"
        ollamaModel := some "llama3" }).2.2.1
      "http://localhost:11434/" rfl (by simp) (by decide)
  rw [h]
  rfl

/-! ### Secret codec (`src/lib/ai/secrets.ts`)

`encryptSecret`/`decryptSecret` wrap the platform `aes-256-gcm` primitive,
which we model as an abstract authenticated cipher `AeadCipher`; its
round-trip and authentication properties appear as hypotheses of the
theorems.  The base64 codec and the `payload.split('.')` destructuring are
modelled concretely. -/

/-- `payload.split('.')` at the character level. -/
def splitDotChars : List Char → List (List Char)
  | [] => [[]]
  | c :: cs =>
      let rest := splitDotChars cs
      if c = '.' then [] :: rest
      else
        match rest with
        | [] => [[c]]
        | h :: t => (c :: h) :: t

def jsSplitDot (s : String) : List String := (splitDotChars s.data).map String.mk

/-- The standard base64 alphabet. -/
def sixToChar (n : Nat) : Char :=
  if n < 26 then Char.ofNat (65 + n)
  else if n < 52 then Char.ofNat (97 + (n - 26))
  else if n < 62 then Char.ofNat (48 + (n - 52))
  else if n = 62 then '+'
  else '/'

def charToSix (c : Char) : Nat :=
  if 65 ≤ c.toNat ∧ c.toNat ≤ 90 then c.toNat - 65
  else if 97 ≤ c.toNat ∧ c.toNat ≤ 122 then c.toNat - 97 + 26
  else if 48 ≤ c.toNat ∧ c.toNat ≤ 57 then c.toNat - 48 + 52
  else if c = '+' then 62
  else if c = '/' then 63
  else 0

/-- `Buffer.toString('base64')` over a byte list. -/
def b64EncodeChunks : List Nat → List Char
  | [] => []
  | [b1] => [sixToChar (b1 / 4), sixToChar (b1 % 4 * 16), '=', '=']
  | [b1, b2] => [sixToChar (b1 / 4), sixToChar (b1 % 4 * 16 + b2 / 16),
                 sixToChar (b2 % 16 * 4), '=']
  | b1 :: b2 :: b3 :: rest =>
      sixToChar (b1 / 4) :: sixToChar (b1 % 4 * 16 + b2 / 16) ::
        sixToChar (b2 % 16 * 4 + b3 / 64) :: sixToChar (b3 % 64) ::
        b64EncodeChunks rest

/-- `Buffer.from(s, 'base64')` on canonical base64 text. -/
def b64DecodeChunks : List Char → List Nat
  | c1 :: c2 :: c3 :: c4 :: rest =>
      if c3 = '=' then [charToSix c1 * 4 + charToSix c2 / 16]
      else if c4 = '=' then
        [charToSix c1 * 4 + charToSix c2 / 16,
         charToSix c2 % 16 * 16 + charToSix c3 / 4]
      else
        (charToSix c1 * 4 + charToSix c2 / 16) ::
          (charToSix c2 % 16 * 16 + charToSix c3 / 4) ::
          (charToSix c3 % 4 * 64 + charToSix c4) ::
          b64DecodeChunks rest
  | _ => []

def b64String (bs : List Nat) : String := String.mk (b64EncodeChunks bs)

/-- Abstract model of the `aes-256-gcm` authenticated cipher from
`node:crypto`: `enc key iv plaintext` yields (ciphertext bytes, auth tag),
`dec key iv ciphertext tag` yields the plaintext or fails the tag check. -/
structure AeadCipher where
  enc : List Nat → List Nat → String → List Nat × List Nat
  dec : List Nat → List Nat → List Nat → List Nat → Option String

inductive DecryptErr where
  | invalidPayload
  | authFailure
deriving DecidableEq

/-- `encryptSecret` (secrets.ts lines 15-24): authenticated encryption with
the token format `base64(iv).base64(tag).base64(ciphertext)`; the random iv
is an explicit argument. -/
def encryptSecret (C : AeadCipher) (key iv : List Nat) (plaintext : String) : String :=
  let ciphertext := (C.enc key iv plaintext).1
  let tag := (C.enc key iv plaintext).2
  b64String iv ++ "." ++ b64String tag ++ "." ++ b64String ciphertext

/-- `decryptSecret` (secrets.ts lines 26-41): destructure the first three
'.'-separated segments, fail with `invalidPayload` when any is missing or
empty, otherwise base64-decode and run the authenticated decryption. -/
def decryptSecret (C : AeadCipher) (key : List Nat) (payload : String) :
    Except DecryptErr String :=
  let segs := jsSplitDot payload
  let ivB64 := (segs.get? 0).getD ""
  let tagB64 := (segs.get? 1).getD ""
  let ciphertextB64 := (segs.get? 2).getD ""
  if ivB64 = "" ∨ tagB64 = "" ∨ ciphertextB64 = "" then .error .invalidPayload
  else
    let iv := b64DecodeChunks ivB64.data
    let tag := b64DecodeChunks tagB64.data
    let ciphertext := b64DecodeChunks ciphertextB64.data
    match C.dec key iv ciphertext tag with
    | some plaintext => .ok plaintext
    | none => .error .authFailure

/-! ### Base64 and split lemmas -/

theorem charToSix_sixToChar : ∀ n, n < 64 → charToSix (sixToChar n) = n := by decide

theorem sixToChar_ne_pad : ∀ n, n < 64 → sixToChar n ≠ '=' := by decide

theorem sixToChar_ne_dot : ∀ n, n < 64 → sixToChar n ≠ '.' := by decide

theorem b64_roundtrip : ∀ (l : List Nat), (∀ b ∈ l, b < 256) →
    b64DecodeChunks (b64EncodeChunks l) = l
  | [], _ => rfl
  | [b1], h => by
      have hb1 : b1 < 256 := h b1 (by simp)
      show b64DecodeChunks [sixToChar (b1 / 4), sixToChar (b1 % 4 * 16), '=', '='] = [b1]
      rw [b64DecodeChunks, if_pos rfl,
        charToSix_sixToChar _ (by omega), charToSix_sixToChar _ (by omega)]
      simp only [List.cons.injEq, and_true]
      omega
  | [b1, b2], h => by
      have hb1 : b1 < 256 := h b1 (by simp)
      have hb2 : b2 < 256 := h b2 (by simp)
      show b64DecodeChunks [sixToChar (b1 / 4), sixToChar (b1 % 4 * 16 + b2 / 16),
          sixToChar (b2 % 16 * 4), '='] = [b1, b2]
      rw [b64DecodeChunks, if_neg (sixToChar_ne_pad _ (by omega)), if_pos rfl,
        charToSix_sixToChar _ (by omega), charToSix_sixToChar _ (by omega),
        charToSix_sixToChar _ (by omega)]
      simp only [List.cons.injEq, and_true]
      omega
  | b1 :: b2 :: b3 :: rest, h => by
      have hb1 : b1 < 256 := h b1 (by simp)
      have hb2 : b2 < 256 := h b2 (by simp)
      have hb3 : b3 < 256 := h b3 (by simp)
      have ih := b64_roundtrip rest (fun b hb => h b (by simp [hb]))
      show b64DecodeChunks (sixToChar (b1 / 4) :: sixToChar (b1 % 4 * 16 + b2 / 16) ::
          sixToChar (b2 % 16 * 4 + b3 / 64) :: sixToChar (b3 % 64) ::
          b64EncodeChunks rest) = b1 :: b2 :: b3 :: rest
      rw [b64DecodeChunks, if_neg (sixToChar_ne_pad _ (by omega)),
        if_neg (sixToChar_ne_pad _ (by omega)),
        charToSix_sixToChar _ (by omega), charToSix_sixToChar _ (by omega),
        charToSix_sixToChar _ (by omega), charToSix_sixToChar _ (by omega), ih]
      simp only [List.cons.injEq, and_true]
      omega

theorem b64EncodeChunks_ne_nil : ∀ (l : List Nat), l ≠ [] → b64EncodeChunks l ≠ []
  | [], h => absurd rfl h
  | [_], _ => by simp [b64EncodeChunks]
  | [_, _], _ => by simp [b64EncodeChunks]
  | _ :: _ :: _ :: _, _ => by simp [b64EncodeChunks]

theorem b64EncodeChunks_no_dot : ∀ (l : List Nat), (∀ b ∈ l, b < 256) →
    ∀ ch ∈ b64EncodeChunks l, ch ≠ '.'
  | [], _ => by simp [b64EncodeChunks]
  | [b1], h => by
      have hb1 : b1 < 256 := h b1 (by simp)
      show ∀ ch ∈ [sixToChar (b1 / 4), sixToChar (b1 % 4 * 16), '=', '='], ch ≠ '.'
      simp only [List.mem_cons, List.not_mem_nil, or_false]
      rintro ch (rfl | rfl | rfl | rfl)
      · exact sixToChar_ne_dot _ (by omega)
      · exact sixToChar_ne_dot _ (by omega)
      · decide
      · decide
  | [b1, b2], h => by
      have hb1 : b1 < 256 := h b1 (by simp)
      have hb2 : b2 < 256 := h b2 (by simp)
      show ∀ ch ∈ [sixToChar (b1 / 4), sixToChar (b1 % 4 * 16 + b2 / 16),
          sixToChar (b2 % 16 * 4), '='], ch ≠ '.'
      simp only [List.mem_cons, List.not_mem_nil, or_false]
      rintro ch (rfl | rfl | rfl | rfl)
      · exact sixToChar_ne_dot _ (by omega)
      · exact sixToChar_ne_dot _ (by omega)
      · exact sixToChar_ne_dot _ (by omega)
      · decide
  | b1 :: b2 :: b3 :: rest, h => by
      have hb1 : b1 < 256 := h b1 (by simp)
      have hb2 : b2 < 256 := h b2 (by simp)
      have hb3 : b3 < 256 := h b3 (by simp)
      have ih := b64EncodeChunks_no_dot rest (fun b hb => h b (by simp [hb]))
      show ∀ ch ∈ sixToChar (b1 / 4) :: sixToChar (b1 % 4 * 16 + b2 / 16) ::
          sixToChar (b2 % 16 * 4 + b3 / 64) :: sixToChar (b3 % 64) ::
          b64EncodeChunks rest, ch ≠ '.'
      simp only [List.mem_cons]
      rintro ch (rfl | rfl | rfl | rfl | hm)
      · exact sixToChar_ne_dot _ (by omega)
      · exact sixToChar_ne_dot _ (by omega)
      · exact sixToChar_ne_dot _ (by omega)
      · exact sixToChar_ne_dot _ (by omega)
      · exact ih ch hm

theorem splitDotChars_no_dot (a : List Char) (ha : ∀ ch ∈ a, ch ≠ '.') :
    splitDotChars a = [a] := by
  induction a with
  | nil => rfl
  | cons c cs ih =>
      have hc : c ≠ '.' := ha c (by simp)
      have ih2 := ih (fun ch hch => ha ch (by simp [hch]))
      simp [splitDotChars, if_neg hc, ih2]

theorem splitDotChars_append (a rest : List Char) (ha : ∀ ch ∈ a, ch ≠ '.') :
    splitDotChars (a ++ '.' :: rest) = a :: splitDotChars rest := by
  induction a with
  | nil => simp [splitDotChars]
  | cons c cs ih =>
      have hc : c ≠ '.' := ha c (by simp)
      have ih2 := ih (fun ch hch => ha ch (by simp [hch]))
      simp [List.cons_append, splitDotChars, if_neg hc, ih2]

theorem mkString_ne_empty (l : List Char) (h : l ≠ []) : String.mk l ≠ "" := by
  intro he
  have h2 := congrArg String.data he
  simp at h2
  exact h h2

theorem decryptSecret_token (C : AeadCipher) (key iv tag ct : List Nat)
    (hiv : iv ≠ []) (hivb : ∀ b ∈ iv, b < 256)
    (htag : tag ≠ []) (htagb : ∀ b ∈ tag, b < 256)
    (hct : ct ≠ []) (hctb : ∀ b ∈ ct, b < 256) :
    decryptSecret C key (b64String iv ++ "." ++ b64String tag ++ "." ++ b64String ct)
      = match C.dec key iv ct tag with
        | some pt => .ok pt
        | none => .error .authFailure := by
  have hdata : (b64String iv ++ "." ++ b64String tag ++ "." ++ b64String ct).data
      = b64EncodeChunks iv ++ '.' :: (b64EncodeChunks tag ++ '.' :: b64EncodeChunks ct) := by
    simp [String.data_append, b64String, List.append_assoc]
  have hsegs : jsSplitDot (b64String iv ++ "." ++ b64String tag ++ "." ++ b64String ct)
      = [b64String iv, b64String tag, b64String ct] := by
    unfold jsSplitDot
    rw [hdata, splitDotChars_append _ _ (b64EncodeChunks_no_dot iv hivb),
      splitDotChars_append _ _ (b64EncodeChunks_no_dot tag htagb),
      splitDotChars_no_dot _ (b64EncodeChunks_no_dot ct hctb)]
    rfl
  have h1 : b64String iv ≠ "" := mkString_ne_empty _ (b64EncodeChunks_ne_nil iv hiv)
  have h2 : b64String tag ≠ "" := mkString_ne_empty _ (b64EncodeChunks_ne_nil tag htag)
  have h3 : b64String ct ≠ "" := mkString_ne_empty _ (b64EncodeChunks_ne_nil ct hct)
  simp only [decryptSecret, hsegs]
  rw [if_neg (by simp [h1, h2, h3])]
  have hr1 : b64DecodeChunks (b64String iv).data = iv := b64_roundtrip iv hivb
  have hr2 : b64DecodeChunks (b64String tag).data = tag := b64_roundtrip tag htagb
  have hr3 : b64DecodeChunks (b64String ct).data = ct := b64_roundtrip ct hctb
  simp only [List.get?, Option.getD_some] at hr1 hr2 hr3 ⊢
  rw [hr1, hr2, hr3]

/-- C5: secret-codec round trip and tamper detection.  Assuming the
authenticated cipher satisfies the round-trip and authentication soundness
laws of an AEAD scheme (aes-256-gcm in the source), `decryptSecret`
recovers the plaintext of every `encryptSecret` token, and on a token whose
ciphertext segment encodes any altered byte list (one flipped byte in
particular) it fails with the authentication error rather than returning a
wrong plaintext. -/
theorem secret_roundtrip_and_tamper (C : AeadCipher) (key iv : List Nat) (x : String)
    (hiv : iv ≠ []) (hivb : ∀ b ∈ iv, b < 256)
    (hct : (C.enc key iv x).1 ≠ []) (hctb : ∀ b ∈ (C.enc key iv x).1, b < 256)
    (htag : (C.enc key iv x).2 ≠ []) (htagb : ∀ b ∈ (C.enc key iv x).2, b < 256)
    (hrt : C.dec key iv (C.enc key iv x).1 (C.enc key iv x).2 = some x)
    (hauth : ∀ ct', ct' ≠ (C.enc key iv x).1 →
      C.dec key iv ct' (C.enc key iv x).2 = none) :
    decryptSecret C key (encryptSecret C key iv x) = .ok x ∧
    ∀ ct', (∀ b ∈ ct', b < 256) → ct' ≠ [] → ct' ≠ (C.enc key iv x).1 →
      decryptSecret C key
          (b64String iv ++ "." ++ b64String (C.enc key iv x).2 ++ "." ++ b64String ct')
        = .error .authFailure := by
  constructor
  · show decryptSecret C key
        (b64String iv ++ "." ++ b64String (C.enc key iv x).2 ++ "."
          ++ b64String (C.enc key iv x).1) = .ok x
    rw [decryptSecret_token C key iv (C.enc key iv x).2 (C.enc key iv x).1
      hiv hivb htag htagb hct hctb, hrt]
  · intro ct' hb hne hne2
    rw [decryptSecret_token C key iv (C.enc key iv x).2 ct'
      hiv hivb htag htagb hne hb, hauth ct' hne2]

/-- A concrete authenticated cipher used to witness the abstract C5 laws:
each character becomes three bytes and the tag is the ciphertext itself. -/
def toyEncChar (c : Char) : List Nat :=
  [c.toNat / 65536, c.toNat / 256 % 256, c.toNat % 256]

def toyEncBytes : List Char → List Nat
  | [] => []
  | c :: cs => toyEncChar c ++ toyEncBytes cs

def toyDecBytes : List Nat → Option (List Char)
  | [] => some []
  | a :: b :: c :: rest =>
      (toyDecBytes rest).map (fun cs => Char.ofNat (a * 65536 + b * 256 + c) :: cs)
  | _ => none

def toyCipher : AeadCipher where
  enc := fun _ _ pt => (toyEncBytes pt.data, toyEncBytes pt.data)
  dec := fun _ _ ct tag => if ct = tag then (toyDecBytes ct).map String.mk else none

theorem toyCipher_auth (key iv ct' tag : List Nat) (h : ct' ≠ tag) :
    toyCipher.dec key iv ct' tag = none := by
  show (if ct' = tag then (toyDecBytes ct').map String.mk else none) = none
  exact if_neg h

/-- Witness for C5: with the concrete toy cipher, key `[]`, iv `[0]` and
plaintext `"a"`, the round trip returns `"a"` and a token whose ciphertext
segment has its last byte flipped from 97 to 98 fails authentication. -/
theorem secret_roundtrip_and_tamper_witness :
    decryptSecret toyCipher [] (encryptSecret toyCipher [] [0] "a") = .ok "a" ∧
    decryptSecret toyCipher []
        (b64String [0] ++ "." ++ b64String (toyCipher.enc [] [0] "a").2 ++ "."
          ++ b64String [0, 0, 98])
      = .error .authFailure := by
  have h := secret_roundtrip_and_tamper toyCipher [] [0] "a"
    (by decide) (by decide) (by decide) (by decide) (by decide) (by decide)
    (by decide)
    (fun ct' hne => toyCipher_auth [] [0] ct' _ hne)
  exact ⟨h.1, h.2 [0, 0, 98] (by decide) (by decide) (by decide)⟩

/-- C6 counterexample: the token `"a.b.c.d"` splits into four non-empty
segments, yet `decryptSecret` does not raise `invalidPayload` — JS array
destructuring keeps only the first three segments and ignores the rest, so
the shape check passes and decryption proceeds to the authentication step. -/
theorem decrypt_four_segments_not_invalidPayload :
    jsSplitDot "a.b.c.d" = ["a", "b", "c", "d"] ∧
    decryptSecret ⟨fun _ _ _ => ([], []), fun _ _ _ _ => none⟩ [] "a.b.c.d"
      = .error .authFailure := by
  exact ⟨rfl, rfl⟩

/-- C6 amended: `decryptSecret` fails with `invalidPayload` exactly when one
of the FIRST THREE '.'-separated segments of the token is missing or empty;
segments beyond the third are ignored, so a token with four or more
non-empty segments passes the shape check and proceeds to authentication. -/
theorem decrypt_invalidPayload_iff (C : AeadCipher) (key : List Nat) (payload : String) :
    decryptSecret C key payload = .error .invalidPayload ↔
      (((jsSplitDot payload).get? 0).getD "" = "" ∨
       ((jsSplitDot payload).get? 1).getD "" = "" ∨
       ((jsSplitDot payload).get? 2).getD "" = "") := by
  constructor
  · intro h
    by_contra hn
    simp only [decryptSecret] at h
    rw [if_neg hn] at h
    split at h
    · exact absurd h (by simp)
    · exact absurd h (by simp)
  · intro h
    simp only [decryptSecret]
    rw [if_pos h]

/-! ### Tool-orchestration fallback (`POST`, chat route lines 276-309) -/

inductive ModelHandle where
  | openai (modelId : String)
  | google (apiKey : String) (modelId : String)
  | openaiCompatible (name : String) (baseURL : String) (apiKey : String) (modelId : String)
deriving DecidableEq

/-- JS `String(v)` coercion (array/object stringification approximated). -/
def jsToString : Value → String
  | .str s => s
  | .num n => toString n
  | .boolean true => "true"
  | .boolean false => "false"
  | .null => "null"
  | .arr l => String.intercalate "," (l.attach.map (fun x => jsToString x.1))
  | .obj _ => "[object Object]"
decreasing_by
  simp only [Value.arr.sizeOf_spec]
  have h := List.sizeOf_lt_of_mem x.2
  omega

/-- `String(err[key] ?? '')`. -/
def jsCoerceField (err : Value) (key : String) : String :=
  match getField err key with
  | none => ""
  | some .null => ""
  | some v => jsToString v

/-- `isToolsUnsupportedError` (lines 276-285): a record error value with
`statusCode === 400` whose message or response body contains the
"does not support tools" marker. -/
def isToolsUnsupportedError (err : Value) : Bool :=
  if !isRecordV err then false
  else
    (match getField err "statusCode" with
     | some (.num 400) => true
     | _ => false) &&
    (jsIncludes (jsCoerceField err "message") "does not support tools" ||
     jsIncludes (jsCoerceField err "responseBody") "does not support tools")

/-- The arguments of one `streamText` invocation: model, converted
messages, system prompt, tool set and the `stepCountIs(10)` bound. -/
structure StreamArgs where
  model : ModelHandle
  messages : List Value
  system : String
  tools : List String
  maxSteps : Nat

inductive StreamOutcome where
  | ok (result : Value)
  | err (e : Value)

/-- The `try streamText … catch` fallback of `POST` (lines 287-309):
retry exactly once against `openai('gpt-4o')` with identical messages,
system prompt and tools when the error is the tools-unsupported shape,
rethrow every other error. -/
def streamWithFallback (invoke : StreamArgs → StreamOutcome) (model : ModelHandle)
    (messages : List Value) (system : String) (tools : List String) : StreamOutcome :=
  match invoke ⟨model, messages, system, tools, 10⟩ with
  | .ok r => .ok r
  | .err e =>
      if isToolsUnsupportedError e then
        invoke ⟨ModelHandle.openai "gpt-4o", messages, system, tools, 10⟩
      else .err e

theorem isRecordV_of_getField (e : Value) (k : String) (v : Value)
    (h : getField e k = some v) : isRecordV e = true := by
  cases e with
  | obj fs => rfl
  | arr l => rfl
  | str s => simp [getField] at h
  | num n => simp [getField] at h
  | boolean b => simp [getField] at h
  | null => simp [getField] at h

/-- C4: if the first invocation fails with a 400 error carrying the
"does not support tools" marker in its message or response body, the
exchange is retried exactly once against `openai('gpt-4o')` with identical
messages, system prompt and tools, and the retry's outcome is returned;
every error not matching that shape propagates unchanged. -/
theorem streamText_tools_fallback (invoke : StreamArgs → StreamOutcome)
    (model : ModelHandle) (messages : List Value) (system : String)
    (tools : List String) (e : Value)
    (herr : invoke ⟨model, messages, system, tools, 10⟩ = .err e) :
    (isToolsUnsupportedError e = true →
      streamWithFallback invoke model messages system tools
        = invoke ⟨ModelHandle.openai "gpt-4o", messages, system, tools, 10⟩) ∧
    (isToolsUnsupportedError e = false →
      streamWithFallback invoke model messages system tools = .err e) ∧
    (∀ m, getField e "statusCode" = some (.num 400) →
      getField e "message" = some (.str m) →
      jsIncludes m "does not support tools" = true →
      isToolsUnsupportedError e = true) ∧
    (∀ b, getField e "statusCode" = some (.num 400) →
      getField e "responseBody" = some (.str b) →
      jsIncludes b "does not support tools" = true →
      isToolsUnsupportedError e = true) ∧
    (getField e "statusCode" ≠ some (.num 400) →
      isToolsUnsupportedError e = false) := by
  refine ⟨?_, ?_, ?_, ?_, ?_⟩
  · intro h
    simp [streamWithFallback, herr, h]
  · intro h
    simp [streamWithFallback, herr, h]
  · intro m hsc hmsg hinc
    have hrec := isRecordV_of_getField e "statusCode" _ hsc
    simp [isToolsUnsupportedError, jsCoerceField, hrec, hsc, hmsg, jsToString, hinc]
  · intro b hsc hbody hinc
    have hrec := isRecordV_of_getField e "statusCode" _ hsc
    simp [isToolsUnsupportedError, jsCoerceField, hrec, hsc, hbody, jsToString, hinc]
  · intro h
    unfold isToolsUnsupportedError
    split
    · rfl
    · split
      · next heq => exact absurd heq h
      · simp

/-- The concrete error and invocation behavior used to witness C4. -/
def demoToolsError : Value :=
  .obj [("statusCode", .num 400), ("message", .str "model xyz does not support tools")]

def demoInvoke : StreamArgs → StreamOutcome :=
  fun args =>
    match args.model with
    | .openai _ => .ok (.str "done")
    | _ => .err demoToolsError

/-- Witness for C4: a non-OpenAI model raising the 400 tools-unsupported
error is retried once against `openai('gpt-4o')` and succeeds. -/
theorem streamText_tools_fallback_witness :
    streamWithFallback demoInvoke (.google "key" "gemini-flash-latest") [] "sys" []
      = .ok (.str "done") := by
  have h := streamText_tools_fallback demoInvoke (.google "key" "gemini-flash-latest")
    [] "sys" [] demoToolsError rfl
  have htrue := h.2.2.1 "model xyz does not support tools" rfl rfl (by decide)
  rw [h.1 htrue]
  rfl

/-! ### Ollama model-listing probe (`getOllamaModelsAction`, ai-settings.ts
lines 163-203) -/

inductive FetchResult where
  | err
  | resp (ok : Bool) (body : Value)

/-- `(m.name ?? '').trim()` for one entry of `json.models`; `.error ()`
models a thrown TypeError (a null entry, or a name on which `.trim` is not
a function), which the surrounding catch turns into an empty model list. -/
def tagEntryName : Value → Except Unit String
  | .null => .error ()
  | .obj fs =>
      match getField (.obj fs) "name" with
      | none => .ok ""
      | some .null => .ok ""
      | some (.str s) => .ok (jsTrim s)
      | some _ => .error ()
  | _ => .ok ""

/-- `(json.models ?? []).map(m => (m.name ?? '').trim())` with JS throw
propagation. -/
def extractTagNames : List Value → Except Unit (List String)
  | [] => .ok []
  | m :: rest =>
      match tagEntryName m, extractTagNames rest with
      | .ok n, .ok ns => .ok (n :: ns)
      | _, _ => .error ()

/-- `getOllamaModelsAction`: `fetch` abstracts the bounded-timeout GET to
`{host}/api/tags` (`.err` covers network errors, timeouts and JSON parse
failures) and `cmp` abstracts the locale comparator `a.localeCompare(b)`;
the stable sort of the JS runtime is modelled by insertion sort.  Every
failure path returns an empty model list instead of raising. -/
def getOllamaModelsAction (fetch : String → FetchResult) (cmp : String → String → Int)
    (ollamaHostUrl : String) : List String :=
  let base := normalizeHostUrl ollamaHostUrl
  if base = "" then []
  else
    match fetch (base ++ "/api/tags") with
    | .err => []
    | .resp false _ => []
    | .resp true json =>
        match getField json "models" with
        | some (.arr ms) =>
            match extractTagNames ms with
            | .ok ns => (ns.filter (fun s => s != "")).insertionSort
                (fun a b => cmp a b ≤ 0)
            | .error _ => []
        | _ => []

/-- A comparator that kernel-evaluates: compare head character codes. -/
def demoCmp (a b : String) : Int :=
  Int.ofNat ((a.data.head?.map Char.toNat).getD 0)
    - Int.ofNat ((b.data.head?.map Char.toNat).getD 0)

def dupFetch : String → FetchResult :=
  fun _ => .resp true (.obj [("models",
    .arr [.obj [("name", .str "a")], .obj [("name", .str "a")]])])

/-- C9 counterexample: the probe does not deduplicate — a body listing the
name "a" twice yields `["a", "a"]`, which is not a deduplicated list. -/
theorem getOllamaModels_no_dedup :
    getOllamaModelsAction dupFetch demoCmp "http://localhost:11434" = ["a", "a"] ∧
    ¬ (["a", "a"] : List String).Nodup := by
  exact ⟨rfl, by decide⟩

/-- C9 amended: the probe returns the empty list on an empty normalized
host, a failed or non-2xx fetch, a missing/ill-typed `models` field, or a
throwing entry; on a well-formed body it returns the trimmed names with the
empty ones removed, stably sorted by the comparator — a permutation of the
filtered names (duplicates preserved, no deduplication), sorted whenever
the comparator is transitive and total. -/
theorem getOllamaModels_spec (fetch : String → FetchResult) (cmp : String → String → Int)
    (host : String) :
    (normalizeHostUrl host = "" → getOllamaModelsAction fetch cmp host = []) ∧
    (fetch (normalizeHostUrl host ++ "/api/tags") = .err →
      getOllamaModelsAction fetch cmp host = []) ∧
    (∀ body, fetch (normalizeHostUrl host ++ "/api/tags") = .resp false body →
      getOllamaModelsAction fetch cmp host = []) ∧
    (∀ body, fetch (normalizeHostUrl host ++ "/api/tags") = .resp true body →
      getField body "models" = none →
      getOllamaModelsAction fetch cmp host = []) ∧
    (∀ body v, fetch (normalizeHostUrl host ++ "/api/tags") = .resp true body →
      getField body "models" = some v → (∀ ms, v ≠ .arr ms) →
      getOllamaModelsAction fetch cmp host = []) ∧
    (∀ body ms, fetch (normalizeHostUrl host ++ "/api/tags") = .resp true body →
      getField body "models" = some (.arr ms) →
      extractTagNames ms = .error () →
      getOllamaModelsAction fetch cmp host = []) ∧
    (∀ body ms ns, normalizeHostUrl host ≠ "" →
      fetch (normalizeHostUrl host ++ "/api/tags") = .resp true body →
      getField body "models" = some (.arr ms) →
      extractTagNames ms = .ok ns →
      getOllamaModelsAction fetch cmp host
          = (ns.filter (fun s => s != "")).insertionSort (fun a b => cmp a b ≤ 0) ∧
        (getOllamaModelsAction fetch cmp host).Perm (ns.filter (fun s => s != "")) ∧
        ((∀ a b c, cmp a b ≤ 0 → cmp b c ≤ 0 → cmp a c ≤ 0) →
          (∀ a b, cmp a b ≤ 0 ∨ cmp b a ≤ 0) →
          (getOllamaModelsAction fetch cmp host).Sorted (fun a b => cmp a b ≤ 0))) := by
  refine ⟨?_, ?_, ?_, ?_, ?_, ?_, ?_⟩
  · intro h
    simp [getOllamaModelsAction, h]
  · intro h
    by_cases hb : normalizeHostUrl host = ""
    · simp [getOllamaModelsAction, hb]
    · simp [getOllamaModelsAction, hb, h]
  · intro body h
    by_cases hb : normalizeHostUrl host = ""
    · simp [getOllamaModelsAction, hb]
    · simp [getOllamaModelsAction, hb, h]
  · intro body h hm
    by_cases hb : normalizeHostUrl host = ""
    · simp [getOllamaModelsAction, hb]
    · simp [getOllamaModelsAction, hb, h, hm]
  · intro body v h hm hv
    by_cases hb : normalizeHostUrl host = ""
    · simp [getOllamaModelsAction, hb]
    · simp only [getOllamaModelsAction, if_neg hb, h, hm]
      cases v with
      | arr ms => exact absurd rfl (hv ms)
      | str s => rfl
      | num n => rfl
      | boolean b => rfl
      | null => rfl
      | obj fs => rfl
  · intro body ms h hm he
    by_cases hb : normalizeHostUrl host = ""
    · simp [getOllamaModelsAction, hb]
    · simp [getOllamaModelsAction, hb, h, hm, he]
  · intro body ms ns hb hf hm he
    have heq : getOllamaModelsAction fetch cmp host
        = (ns.filter (fun s => s != "")).insertionSort (fun a b => cmp a b ≤ 0) := by
      simp [getOllamaModelsAction, hb, hf, hm, he]
    refine ⟨heq, ?_, ?_⟩
    · rw [heq]
      exact List.perm_insertionSort _ _
    · intro htrans htot
      rw [heq]
      haveI : IsTrans String (fun a b => cmp a b ≤ 0) := ⟨htrans⟩
      haveI : IsTotal String (fun a b => cmp a b ≤ 0) := ⟨htot⟩
      exact List.sorted_insertionSort _ _

def demoTagsFetch : String → FetchResult :=
  fun _ => .resp true (.obj [("models",
    .arr [.obj [("name", .str "b")], .obj [("name", .str "a")],
          .obj [("name", .str "")]])])

/-- A body whose single entry is `null`, so `(m.name ?? '')` throws. -/
def throwTagsFetch : String → FetchResult :=
  fun _ => .resp true (.obj [("models", .arr [.null])])

/-- Witness for the amended C9 theorem: the spec's own scenario — a body
`{"models":[{"name":"b"},{"name":"a"},{"name":""}]}` yields `["a","b"]` —
and a throwing entry (`{"models":[null]}`) yields the empty list. -/
theorem getOllamaModels_spec_witness :
    getOllamaModelsAction demoTagsFetch demoCmp "http://localhost:11434" = ["a", "b"] ∧
    getOllamaModelsAction throwTagsFetch demoCmp "http://localhost:11434" = [] := by
  constructor
  · have h := (getOllamaModels_spec demoTagsFetch demoCmp
        "http://localhost:11434").2.2.2.2.2.2
      (.obj [("models",
        .arr [.obj [("name", .str "b")], .obj [("name", .str "a")],
              .obj [("name", .str "")]])])
      [.obj [("name", .str "b")], .obj [("name", .str "a")], .obj [("name", .str "")]]
      ["b", "a", ""] (by decide) rfl rfl rfl
    exact h.1.trans (by decide)
  · exact (getOllamaModels_spec throwTagsFetch demoCmp
        "http://localhost:11434").2.2.2.2.2.1
      (.obj [("models", .arr [.null])]) [.null] rfl rfl rfl

/-! ### Model resolver (`getPreferredModelForCurrentUser`,
src/lib/ai/user-model.ts) -/

/-- `normalizeBaseUrl` of user-model.ts (same body as `normalizeHostUrl`). -/
def normalizeBaseUrl (url : String) : String :=
  let trimmed := jsTrim url
  if trimmed = "" then ""
  else if trimmed.data.getLast? = some '/' then String.mk trimmed.data.dropLast
  else trimmed

/-- The raw `AiSettings` row the resolver reads (`AiSettingsRow`). -/
structure SettingsRow where
  preferredProvider : Option String
  geminiApiKeyEncrypted : Option String
  geminiModel : Option String
  ollamaHostUrl : Option String
  ollamaModel : Option String

/-- `getPreferredModelForCurrentUser`: `row?` is the settings row fetched
for the authenticated user (`none` when absent or the query fails) and
`decryptSecretF` stands for `decryptSecret`; any decryption failure is
absorbed by the surrounding catch into the fallback handle. -/
def getPreferredModelForCurrentUser (decryptSecretF : String → Except DecryptErr String)
    (row? : Option SettingsRow) (purpose : String) (fallbackOpenAiModelId : String)
    (requireTools : Bool) : ModelHandle :=
  let fallback := ModelHandle.openai fallbackOpenAiModelId
  match row? with
  | none => fallback
  | some settings =>
      let provider := settings.preferredProvider.getD "openai"
      if provider = "gemini" then
        match settings.geminiApiKeyEncrypted with
        | none => fallback
        | some enc =>
            if enc = "" then fallback
            else
              match decryptSecretF enc with
              | .error _ => fallback
              | .ok apiKey =>
                  let modelId :=
                    match settings.geminiModel with
                    | some m => if m = "" then "gemini-flash-latest" else m
                    | none => "gemini-flash-latest"
                  ModelHandle.google apiKey modelId
      else if provider = "ollama" then
        let host :=
          match settings.ollamaHostUrl with
          | some u => if u = "" then "" else normalizeBaseUrl u
          | none => ""
        let modelId := jsTrim (settings.ollamaModel.getD "")
        if host = "" then fallback
        else if modelId = "" then fallback
        else if requireTools && jsIncludes (jsToLower modelId) "deepseek-r1" then fallback
        else ModelHandle.openaiCompatible "ollama" (host ++ "/v1") "ollama" modelId
      else fallback

/-- C10: whenever no settings row exists, or the stored provider (defaulted
to "openai" when null) is anything other than "gemini" or "ollama" — in
particular "openai" itself — the resolver returns the OpenAI fallback
handle bound to the caller-supplied fallback model id, ignoring every
stored gemini/ollama field. -/
theorem resolver_defaults_to_fallback (decryptSecretF : String → Except DecryptErr String)
    (row? : Option SettingsRow) (purpose fallbackId : String) (requireTools : Bool) :
    (row? = none →
      getPreferredModelForCurrentUser decryptSecretF row? purpose fallbackId requireTools
        = .openai fallbackId) ∧
    (∀ s, row? = some s →
      s.preferredProvider.getD "openai" ≠ "gemini" →
      s.preferredProvider.getD "openai" ≠ "ollama" →
      getPreferredModelForCurrentUser decryptSecretF row? purpose fallbackId requireTools
        = .openai fallbackId) := by
  constructor
  · intro h
    subst h
    rfl
  · intro s h h1 h2
    subst h
    simp [getPreferredModelForCurrentUser, h1, h2]

/-- Witness for C10: a stored "openai" provider with fully populated gemini
and ollama fields still resolves to the OpenAI fallback handle. -/
theorem resolver_defaults_to_fallback_witness :
    getPreferredModelForCurrentUser (fun _ => .error .authFailure)
        (some { preferredProvider := some "openai"
                geminiApiKeyEncrypted := some "ENCRYPTEDKEY"
                geminiModel := some "gemini-2.5-pro"
                ollamaHostUrl := some "http://localhost:11434"
                ollamaModel := some "llama3" })
        "chat" "gpt-4o" true
      = .openai "gpt-4o" := by
  exact (resolver_defaults_to_fallback (fun _ => .error .authFailure)
      (some { preferredProvider := some "openai"
              geminiApiKeyEncrypted := some "ENCRYPTEDKEY"
              geminiModel := some "gemini-2.5-pro"
              ollamaHostUrl := some "http://localhost:11434"
              ollamaModel := some "llama3" })
      "chat" "gpt-4o" true).2 _ rfl (by decide) (by decide)

end Deltalytix
